import Mathlib

/-!
Verification of the ureact reconciler core against its specification.

Each section embeds one part of the TypeScript source (`src/src/*.ts` and the
unnamed source parts) as executable Lean definitions and proves or refutes the
corresponding specification claims.
-/

namespace Ureact

/-! ## Prop bags and `shallowEqual` (src/src/diff-utils.ts)

A JavaScript prop bag is modelled as an association list from property names
to values, with no duplicate keys.  A property may be present with the value
`undefined`; reading an absent property also yields `undefined`.  We model the
value space as `Option V`: `none` is `undefined`, `some v` a defined value,
with `===` on defined values modelled by decidable equality on `V`. -/

/-- A JS object used as a prop bag: association list of own enumerable keys. -/
abbrev PropBag (V : Type) : Type := List (String × Option V)

/-- Find the entry for property `k`, if any. -/
def lookupProp {V : Type} (k : String) : PropBag V → Option (Option V)
  | [] => none
  | (k', v) :: t => if k = k' then some v else lookupProp k t

/-- `a[key]`: reading a property; an absent key reads as `undefined` (`none`). -/
def readProp {V : Type} (a : PropBag V) (k : String) : Option V :=
  match lookupProp k a with
  | some v => v
  | none => none

/-- `key in a`: the JS `in` operator on an own-keys bag. -/
def hasKey {V : Type} (a : PropBag V) (k : String) : Bool :=
  (lookupProp k a).isSome

/-- Keys of the bag, in enumeration order (`for..in`). -/
def bagKeys {V : Type} (a : PropBag V) : List String := a.map Prod.fst

/-- Embedding of `shallowEqual` from src/src/diff-utils.ts: the first loop
checks `a[key] !== b[key]` for every key of `a`; the second checks
`!(key in a)` for every key of `b`. -/
def shallowEqual {V : Type} [DecidableEq V] (a b : PropBag V) : Bool :=
  (bagKeys a).all (fun k => readProp a k == readProp b k) &&
    (bagKeys b).all (fun k => hasKey a k)

theorem lookupProp_mem {V : Type} {l : PropBag V} {k : String}
    {v : Option V} (h : lookupProp k l = some v) : (k, v) ∈ l := by
  induction l with
  | nil => simp [lookupProp] at h
  | cons p t ih =>
    obtain ⟨k', v'⟩ := p
    rw [lookupProp] at h
    by_cases hk : k = k'
    · subst hk
      simp only [if_true, eq_self_iff_true, if_pos, Option.some.injEq] at h
      subst h
      exact List.mem_cons_self _ _
    · rw [if_neg hk] at h
      exact List.mem_cons_of_mem _ (ih h)

theorem mem_bagKeys_iff_isSome {V : Type} (l : PropBag V) (k : String) :
    k ∈ bagKeys l ↔ (lookupProp k l).isSome := by
  induction l with
  | nil => simp [bagKeys, lookupProp]
  | cons p t ih =>
    obtain ⟨k', v'⟩ := p
    rw [bagKeys, List.map_cons, List.mem_cons, lookupProp]
    by_cases hk : k = k'
    · simp [hk]
    · simpa [hk, bagKeys] using ih

theorem hasKey_false_readProp {V : Type} {a : PropBag V} {k : String}
    (h : hasKey a k = false) : readProp a k = none := by
  rw [hasKey] at h
  cases hl : lookupProp k a with
  | none => simp [readProp, hl]
  | some v => rw [hl] at h; simp at h

theorem hasKey_true_readProp_ne_none {V : Type} {a : PropBag V} {k : String}
    (ha : ∀ p ∈ a, p.2 ≠ none) (h : hasKey a k = true) : readProp a k ≠ none := by
  rw [hasKey, Option.isSome_iff_exists] at h
  obtain ⟨v, hv⟩ := h
  have hr : readProp a k = v := by simp [readProp, hv]
  rw [hr]
  exact ha (k, v) (lookupProp_mem hv)

theorem readProp_ne_none_hasKey {V : Type} {a : PropBag V} {k : String}
    (h : readProp a k ≠ none) : hasKey a k = true := by
  rw [hasKey]
  cases hl : lookupProp k a with
  | none => exact absurd (by simp [readProp, hl]) h
  | some v => simp

/-- Unfolding of the two loops of `shallowEqual`. -/
theorem shallowEqual_eq_true_iff {V : Type} [DecidableEq V] (a b : PropBag V) :
    shallowEqual a b = true ↔
      (∀ k ∈ bagKeys a, readProp a k = readProp b k) ∧
      (∀ k ∈ bagKeys b, hasKey a k = true) := by
  simp [shallowEqual, List.all_eq_true, beq_iff_eq]

/-- C9 counterexample: `shallowEqual({x: undefined}, {})` returns `true`
although the two bags do not have the same set of keys, refuting the claim
that `shallowEqual` returns true only when the key sets coincide. -/
theorem shallowEqual_undefined_key :
    shallowEqual (V := Nat) [("x", none)] [] = true ∧
    (bagKeys (V := Nat) [("x", none)]).contains "x" = true ∧
    (bagKeys (V := Nat) ([] : PropBag Nat)).contains "x" = false := by
  decide

/-- C9 (amended): for prop bags none of whose properties hold the value
`undefined`, `shallowEqual(a, b)` returns true iff `a` and `b` have the same
set of keys and `===`-equal values at every key.  (On bags with
`undefined`-valued properties the key-set condition can fail, see the
counterexample.) -/
theorem shallowEqual_spec {V : Type} [DecidableEq V] (a b : PropBag V)
    (ha : ∀ p ∈ a, p.2 ≠ none) (_hb : ∀ p ∈ b, p.2 ≠ none) :
    shallowEqual a b = true ↔
      (∀ k, hasKey a k = hasKey b k) ∧ (∀ k, readProp a k = readProp b k) := by
  rw [shallowEqual_eq_true_iff]
  constructor
  · rintro ⟨h1, h2⟩
    have hbfalse : ∀ k, hasKey a k = false → hasKey b k = false := by
      intro k hk
      cases hkb : hasKey b k with
      | false => rfl
      | true =>
        have : k ∈ bagKeys b := by
          rw [mem_bagKeys_iff_isSome]
          exact hkb
        rw [h2 k this] at hk
        exact absurd hk (by simp)
    have hreads : ∀ k, readProp a k = readProp b k := by
      intro k
      cases hk : hasKey a k with
      | true =>
        exact h1 k ((mem_bagKeys_iff_isSome a k).mpr hk)
      | false =>
        rw [hasKey_false_readProp hk, hasKey_false_readProp (hbfalse k hk)]
    refine ⟨?_, hreads⟩
    intro k
    cases hk : hasKey a k with
    | true =>
      have hne : readProp b k ≠ none := by
        rw [← hreads k]
        exact hasKey_true_readProp_ne_none ha hk
      rw [readProp_ne_none_hasKey hne]
    | false =>
      rw [hbfalse k hk]
  · rintro ⟨hk, hv⟩
    constructor
    · intro k _
      exact hv k
    · intro k hmem
      rw [hk k]
      rw [mem_bagKeys_iff_isSome] at hmem
      exact hmem

/-- Witness instantiating `shallowEqual_spec` at concrete bags. -/
theorem shallowEqual_spec_witness :
    shallowEqual (V := Nat) [("x", some 1)] [("x", some 1)] = true ↔
      (∀ k, hasKey (V := Nat) [("x", some 1)] k = hasKey (V := Nat) [("x", some 1)] k) ∧
      (∀ k, readProp (V := Nat) [("x", some 1)] k = readProp (V := Nat) [("x", some 1)] k) :=
  shallowEqual_spec [("x", some 1)] [("x", some 1)] (by decide) (by decide)

/-! ## Text vnode diffing (src/src/render.ts, `_diff`, text arm)

A text vnode is a JS string or a (finite) number, modelled here with integer
numbers.  `===` compares type and value, so it is decidable equality on the
sum; a string and a number are never `===`-equal.  The matched text arm of
`_diff` keeps the existing component and its host text node (no remount) and
assigns `dom.data = vnode.toString()` exactly when `vnode !== prevVnode`. -/

inductive TextVNode where
  | str (s : String)
  | num (n : Int)
deriving DecidableEq

/-- `toString` of a text vnode. -/
def textToString : TextVNode → String
  | .str s => s
  | .num n => toString n

/-- Outcome of the text arm of `_diff`: the host text node's resulting `data`,
whether the `data` assignment was performed, and whether the component was
remounted. -/
structure TextDiffResult where
  data : String
  wrote : Bool
  remounted : Bool
deriving DecidableEq

/-- Embedding of the `isTextVNode(prevVnode) && isTextVNode(vnode)` arm of
`_diff`: `if (vnode !== prevVnode) { (component.dom as Text).data =
vnode.toString(); }` and `typeMatched = true`. -/
def diffText (prevVnode vnode : TextVNode) (domData : String) : TextDiffResult :=
  if vnode = prevVnode then { data := domData, wrote := false, remounted := false }
  else { data := textToString vnode, wrote := true, remounted := false }

/-- C7 counterexample: diffing previous text `1` (a number) against new text
`"1"` (a string) performs the `data` assignment although the two string
representations are identical, because `"1" !== 1` in JS.  This refutes the
"only if the string representations differ" half of the claim when "updated"
means the assignment to `dom.data`. -/
theorem diffText_num_str_write :
    (diffText (TextVNode.num 1) (TextVNode.str "1") "1").wrote = true ∧
    textToString (TextVNode.num 1) = textToString (TextVNode.str "1") := by
  constructor
  · rfl
  · decide

/-- C7 (amended): in the matched text arm the host text node is always reused
without a remount; the `data` assignment is performed iff the two values
differ under `===` (type-and-value equality); and, given that the node's data
equals the previous value's string representation, the data's *value* changes
iff the two string representations differ. -/
theorem diffText_spec (prev new : TextVNode) (dom : String)
    (h : dom = textToString prev) :
    (diffText prev new dom).remounted = false ∧
    ((diffText prev new dom).wrote = true ↔ new ≠ prev) ∧
    ((diffText prev new dom).data ≠ dom ↔ textToString new ≠ textToString prev) := by
  subst h
  by_cases he : new = prev
  · subst he
    simp [diffText]
  · simp [diffText, he]

/-- Witness instantiating `diffText_spec` at concrete text vnodes. -/
theorem diffText_spec_witness :
    (diffText (TextVNode.str "a") (TextVNode.num 2) "a").remounted = false ∧
    ((diffText (TextVNode.str "a") (TextVNode.num 2) "a").wrote = true ↔
      TextVNode.num 2 ≠ TextVNode.str "a") ∧
    ((diffText (TextVNode.str "a") (TextVNode.num 2) "a").data ≠ "a" ↔
      textToString (TextVNode.num 2) ≠ textToString (TextVNode.str "a")) :=
  diffText_spec (TextVNode.str "a") (TextVNode.num 2) "a" rfl

/-! ## Hook cleanup order (src/src/hooks.ts, `HookState.cleanup`)

`cleanup()` iterates `this._hooks` — the hook cells in insertion order — and
for a `context` cell calls `hook.unsubscribe()`, for an `effect` cell runs the
stored `hook.cleanup` if present.  (The variant in src/unnamed/part_015 lines
140-148 iterates the same list forward and runs each cell's stored `cleanup`,
which for context cells is the unsubscription; its observable order is the
same.)  We record the sequence of actions run. -/

/-- An observable action performed during hook cleanup. -/
inductive CleanupAction where
  | unsubscribe (id : Nat)
  | effectCleanup (id : Nat)
deriving DecidableEq

/-- A hook cell as seen by `cleanup`: context cells always unsubscribe, effect
cells run their stored cleanup when one exists, other cells do nothing. -/
inductive HookCell where
  | context (id : Nat)
  | effect (cleanup : Option Nat)
  | state
  | memo
  | ref
deriving DecidableEq

/-- The action the `switch` in `cleanup()` performs for one hook cell. -/
def cleanupActionOf : HookCell → Option CleanupAction
  | .context i => some (.unsubscribe i)
  | .effect (some i) => some (.effectCleanup i)
  | .effect none => none
  | .state => none
  | .memo => none
  | .ref => none

/-- Embedding of `HookState.cleanup`: the `for (let hook of this._hooks)` loop
in insertion order, collecting the actions it runs. -/
def cleanup : List HookCell → List CleanupAction
  | [] => []
  | h :: t =>
    match cleanupActionOf h with
    | some a => a :: cleanup t
    | none => cleanup t

/-- The order demanded by the claim: all effect cleanups run before any
context unsubscription. -/
def effectCleanupsFirst : List CleanupAction → Bool
  | [] => true
  | .effectCleanup _ :: t => effectCleanupsFirst t
  | .unsubscribe _ :: t =>
    t.all fun a =>
      match a with
      | .unsubscribe _ => true
      | .effectCleanup _ => false

/-- C5 counterexample: for a component whose first hook is a context
subscription and whose second is an effect with a stored cleanup, `cleanup`
runs the context unsubscription *first* — forward insertion order — which is
neither "reverse insertion order" nor "effect cleanups first, then
unsubscription from context providers". -/
theorem cleanup_runs_forward :
    cleanup [HookCell.context 0, HookCell.effect (some 1)] =
      [CleanupAction.unsubscribe 0, CleanupAction.effectCleanup 1] ∧
    effectCleanupsFirst
      (cleanup [HookCell.context 0, HookCell.effect (some 1)]) = false := by
  decide

/-- C5 (amended): when a component is unmounted its hook cleanups run in
*forward* insertion order — each hook's action (context unsubscription or
stored effect cleanup) runs at its hook's position, the two kinds
interleaved. -/
theorem cleanup_insertion_order (hs : List HookCell) :
    cleanup hs = hs.filterMap cleanupActionOf := by
  induction hs with
  | nil => rfl
  | cons h t ih =>
    rw [List.filterMap_cons, cleanup]
    cases hact : cleanupActionOf h <;> simp [hact, ih]

/-! ## The hook-cell tag machine (src/src/hooks.ts, `_nextHook` and the hooks)

`_nextHook(type)` advances the cursor and reads the cell at that index; an
existing cell whose `type` tag differs from the requested one raises the
"Hook type mismatch" error.  `useState` and `useReducer` both request and
create cells tagged `"state"`; `useMemo` and `useCallback` both request and
create cells tagged `"memo"`.  Cell payloads (stored value and, for memo
cells, the dependency array) are abstracted to identifiers. -/

/-- The tag stored on a hook cell. -/
inductive HookTag where
  | state
  | memo
  | effect
  | context
  | ref
deriving DecidableEq

/-- A hook cell: its tag, its stored value (`value` for state cells, `result`
for memo cells), and its dependency array (memo cells). -/
structure Cell where
  tag : HookTag
  value : Nat
  deps : List Nat
deriving DecidableEq

/-- `depsEqual` from src/src/hooks.ts: same length and pairwise `===`. -/
def depsEqual (a b : List Nat) : Bool :=
  a.length == b.length && (a.zip b).all fun p => p.1 == p.2

/-- Embedding of `_nextHook`: read the cell at the (already advanced) index;
a present cell with the wrong tag is the fatal mismatch error. -/
def nextHook (hooks : List Cell) (idx : Nat) (want : HookTag) :
    Except String (Option Cell) :=
  match hooks[idx]? with
  | none => .ok none
  | some c =>
    if c.tag = want then .ok (some c)
    else .error "Hook type mismatch. Hooks must be called in same order on each render."

/-- Result of a state-family hook call: the value returned to the component
and the hook list afterwards. -/
structure HookResult where
  ret : Nat
  hooks : List Cell
deriving DecidableEq

/-- Embedding of `useState` (src/src/hooks.ts lines 208-226): request a
`"state"` cell; create one holding the (lazily computed) initial value, or
reuse the existing cell, returning its current value. -/
def useStateStep (hooks : List Cell) (idx : Nat) (initial : Nat) :
    Except String HookResult :=
  match nextHook hooks idx .state with
  | .error e => .error e
  | .ok none => .ok ⟨initial, hooks ++ [⟨.state, initial, []⟩]⟩
  | .ok (some c) => .ok ⟨c.value, hooks⟩

/-- Embedding of `useReducer` (src/src/hooks.ts lines 228-248): request a
`"state"` cell; create one holding `init ? init(initialArg) : initialArg`
(abstracted to `initial`), or reuse the existing cell. -/
def useReducerStep (hooks : List Cell) (idx : Nat) (initial : Nat) :
    Except String HookResult :=
  match nextHook hooks idx .state with
  | .error e => .error e
  | .ok none => .ok ⟨initial, hooks ++ [⟨.state, initial, []⟩]⟩
  | .ok (some c) => .ok ⟨c.value, hooks⟩

/-- Result of a memo-family hook call: the value returned, the hook list
afterwards, and whether the callback argument of `useMemo` was invoked. -/
structure MemoResult where
  ret : Nat
  hooks : List Cell
  invoked : Bool
deriving DecidableEq

/-- Embedding of `useMemo` (src/src/hooks.ts lines 158-172): request a
`"memo"` cell; create one holding `callback()` (abstracted to `computed`), or
on deps change recompute and overwrite the cell, else return the stored
result. -/
def useMemoStep (hooks : List Cell) (idx : Nat) (computed : Nat)
    (deps : List Nat) : Except String MemoResult :=
  match nextHook hooks idx .memo with
  | .error e => .error e
  | .ok none => .ok ⟨computed, hooks ++ [⟨.memo, computed, deps⟩], true⟩
  | .ok (some c) =>
    if depsEqual c.deps deps then .ok ⟨c.value, hooks, false⟩
    else .ok ⟨computed, hooks.set idx ⟨.memo, computed, deps⟩, true⟩

/-- Embedding of `useCallback` (src/src/hooks.ts lines 174-188): identical to
`useMemo` but the stored value is the function itself (never invoked). -/
def useCallbackStep (hooks : List Cell) (idx : Nat) (callback : Nat)
    (deps : List Nat) : Except String MemoResult :=
  match nextHook hooks idx .memo with
  | .error e => .error e
  | .ok none => .ok ⟨callback, hooks ++ [⟨.memo, callback, deps⟩], false⟩
  | .ok (some c) =>
    if depsEqual c.deps deps then .ok ⟨c.value, hooks, false⟩
    else .ok ⟨callback, hooks.set idx ⟨.memo, callback, deps⟩, false⟩

/-- C10: `useState` and `useReducer` create cells under the same `"state"`
tag and `useMemo`/`useCallback` under the same `"memo"` tag (first four
conjuncts: a first-render call appends such a cell); consequently swapping
one member of a pair for the other at the same hook index succeeds with no
"Hook type mismatch" error and silently reuses the cell created by the
earlier call (last two conjuncts: the hook list is unchanged and the stored
value of the existing cell is returned). -/
theorem hook_pair_sharing (hooks : List Cell) (idx : Nat) (c : Cell)
    (v : Nat) (deps : List Nat) (hc : hooks[idx]? = some c) :
    useStateStep hooks hooks.length v = .ok ⟨v, hooks ++ [⟨.state, v, []⟩]⟩ ∧
    useReducerStep hooks hooks.length v = .ok ⟨v, hooks ++ [⟨.state, v, []⟩]⟩ ∧
    useMemoStep hooks hooks.length v deps =
      .ok ⟨v, hooks ++ [⟨.memo, v, deps⟩], true⟩ ∧
    useCallbackStep hooks hooks.length v deps =
      .ok ⟨v, hooks ++ [⟨.memo, v, deps⟩], false⟩ ∧
    (c.tag = .state →
      useReducerStep hooks idx v = .ok ⟨c.value, hooks⟩ ∧
      useStateStep hooks idx v = .ok ⟨c.value, hooks⟩) ∧
    (c.tag = .memo → depsEqual c.deps deps = true →
      useCallbackStep hooks idx v deps = .ok ⟨c.value, hooks, false⟩ ∧
      useMemoStep hooks idx v deps = .ok ⟨c.value, hooks, false⟩) := by
  have hlen : hooks[hooks.length]? = none := by
    simp
  refine ⟨?_, ?_, ?_, ?_, ?_, ?_⟩
  · rw [useStateStep, nextHook, hlen]
  · rw [useReducerStep, nextHook, hlen]
  · rw [useMemoStep, nextHook, hlen]
  · rw [useCallbackStep, nextHook, hlen]
  · intro ht
    constructor <;> simp [useReducerStep, useStateStep, nextHook, hc, ht]
  · intro ht hd
    constructor <;> simp [useCallbackStep, useMemoStep, nextHook, hc, ht, hd]

/-- Witness instantiating `hook_pair_sharing`: a `useState` cell created on
the first render is reused without error by a `useReducer` call on the
second. -/
theorem hook_pair_sharing_witness :
    useStateStep [⟨HookTag.state, 7, []⟩] 1 5 =
      .ok ⟨5, [⟨HookTag.state, 7, []⟩, ⟨HookTag.state, 5, []⟩]⟩ ∧
    useReducerStep [⟨HookTag.state, 7, []⟩] 1 5 =
      .ok ⟨5, [⟨HookTag.state, 7, []⟩, ⟨HookTag.state, 5, []⟩]⟩ ∧
    useMemoStep [⟨HookTag.state, 7, []⟩] 1 5 [] =
      .ok ⟨5, [⟨HookTag.state, 7, []⟩, ⟨HookTag.memo, 5, []⟩], true⟩ ∧
    useCallbackStep [⟨HookTag.state, 7, []⟩] 1 5 [] =
      .ok ⟨5, [⟨HookTag.state, 7, []⟩, ⟨HookTag.memo, 5, []⟩], false⟩ ∧
    ((⟨HookTag.state, 7, []⟩ : Cell).tag = HookTag.state →
      useReducerStep [⟨HookTag.state, 7, []⟩] 0 5 = .ok ⟨7, [⟨HookTag.state, 7, []⟩]⟩ ∧
      useStateStep [⟨HookTag.state, 7, []⟩] 0 5 = .ok ⟨7, [⟨HookTag.state, 7, []⟩]⟩) ∧
    ((⟨HookTag.state, 7, []⟩ : Cell).tag = HookTag.memo →
      depsEqual [] [] = true →
      useCallbackStep [⟨HookTag.state, 7, []⟩] 0 5 [] =
        .ok ⟨7, [⟨HookTag.state, 7, []⟩], false⟩ ∧
      useMemoStep [⟨HookTag.state, 7, []⟩] 0 5 [] =
        .ok ⟨7, [⟨HookTag.state, 7, []⟩], false⟩) :=
  hook_pair_sharing [⟨HookTag.state, 7, []⟩] 0 ⟨HookTag.state, 7, []⟩ 5 [] rfl

/-! ## `createContext` and the `useContext` default path
(src/src/context.ts lines 32-52, src/src/hooks.ts lines 190-206)

In src/src/context.ts, `createContext(defaultValue)` builds
`const contextType = { Provider: (props) => ... }` and returns it: the
returned object has a single own property `Provider` and **no**
`defaultValue` property (the `defaultValue` argument is only captured by the
`Provider` closure, which uses it when the rendered vnode has no `value`
prop).  In src/src/hooks.ts, `useContext(type)` with no matching provider
among the ancestors builds `{ value: type.defaultValue }` and returns its
`value`; reading the absent `.defaultValue` property yields `undefined`.
JS property reads are modelled with `Option`: `none` is `undefined`. -/

/-- The object returned by `createContext`: `providerFallback` is the value
the `Provider` closure substitutes when its props lack a `value` key;
`defaultValueProp` is the JS read of `.defaultValue` on the returned object
(`none` when the property is absent). -/
structure ContextType (V : Type) where
  providerFallback : Option V
  defaultValueProp : Option V
deriving DecidableEq

/-- Embedding of `createContext` from src/src/context.ts: the returned object
literal contains only the `Provider` property, so `.defaultValue` reads as
`undefined`. -/
def createContext {V : Type} (defaultValue : V) : ContextType V :=
  { providerFallback := some defaultValue, defaultValueProp := none }

/-- Embedding of the no-provider arm of `useContext` (src/src/hooks.ts lines
199-202): `const provider = { value: type.defaultValue }; ...` and the hook
returns `hook.provider.value`. -/
def useContextNoProvider {V : Type} (type : ContextType V) : Option V :=
  type.defaultValueProp

/-- C4 (code bug): for the input of the repository test "passes default value
down to children" (test/context.js: `createContext("initial-value")` consumed
with no provider in the tree), the object returned by `createContext` has no
`defaultValue` property and `useContext` returns `undefined` (`none`), not
the `defaultValue` that was passed to `createContext` — the general equation
holds for every default value `v`. -/
theorem createContext_no_defaultValue (v : String) :
    (createContext v).defaultValueProp = none ∧
    useContextNoProvider (createContext v) = none ∧
    (useContextNoProvider (createContext v) == some v) = false :=
  ⟨rfl, rfl, rfl⟩

/-! ## Unhandled errors (src/src/render.ts, `_invokeErrorHandler` lines
557-583 and `_handlePendingError` lines 709-722)

Errors thrown from a user-function render (`_renderCustom`), an effect body
(`_flushEffects`) or a hook cleanup (`_unmount`) are all routed to
`_invokeErrorHandler`, which walks the component's ancestor chain looking for
an `ErrorBoundary` vnode and calls its `handler` prop; a handler that itself
throws replaces the error and the walk continues.  The walk's outcome is
recorded in `_currentError`.  `render`, `_flushUpdates` and `_flushEffects`
all end by calling `_handlePendingError`, which — for an unhandled error —
clears the record, unmounts the whole tree via `this.render(null)` and
re-throws.  The ancestor chain is modelled as a list whose entries are
`none` for a non-boundary component and `some handler` for an
`ErrorBoundary`, with `handler err = .ok ()` for a normal return and
`.error e2` for a handler that throws `e2`. -/

/-- The `_currentError` record: the error and whether a boundary handled it. -/
structure RenderErr (E : Type) where
  error : E
  handled : Bool

/-- The `while (errorHandler !== null)` walk of `_invokeErrorHandler`:
returns the final error value and whether some boundary's handler returned
normally. -/
def walkBoundaries {E : Type} (error : E) :
    List (Option (E → Except E Unit)) → E × Bool
  | [] => (error, false)
  | none :: rest => walkBoundaries error rest
  | some handler :: rest =>
    match handler error with
    | .ok _ => (error, true)
    | .error e2 => walkBoundaries e2 rest

/-- Embedding of `_invokeErrorHandler`: if an error is already pending, the
new one is dropped (only the first error per activity is reported);
otherwise the boundary walk runs and its outcome becomes `_currentError`. -/
def invokeErrorHandler {E : Type} (current : Option (RenderErr E))
    (chain : List (Option (E → Except E Unit))) (err : E) :
    Option (RenderErr E) :=
  match current with
  | some e => some e
  | none => some ⟨(walkBoundaries err chain).1, (walkBoundaries err chain).2⟩

/-- The root state that `_handlePendingError` touches: whether a component
tree is mounted, and the pending error record. -/
structure RootErrorState (E : Type) where
  treeMounted : Bool
  currentError : Option (RenderErr E)

/-- Embedding of `_handlePendingError`: no pending error means no action; a
handled error is just cleared; an unhandled error clears the record, unmounts
the tree (`this.render(null)`) and re-throws (the second component is the
thrown error). -/
def handlePendingError {E : Type} (st : RootErrorState E) :
    RootErrorState E × Option E :=
  match st.currentError with
  | none => (st, none)
  | some lastError =>
    if lastError.handled then ({ st with currentError := none }, none)
    else ({ treeMounted := false, currentError := none }, some lastError.error)

theorem walkBoundaries_no_boundary {E : Type} (err : E)
    (chain : List (Option (E → Except E Unit)))
    (h : chain.all Option.isNone = true) : walkBoundaries err chain = (err, false) := by
  induction chain with
  | nil => rfl
  | cons c rest ih =>
    rw [List.all_cons, Bool.and_eq_true] at h
    cases c with
    | none => exact ih h.2
    | some f => simp at h

/-- C3: if an error raised from a render, effect body or cleanup is not
handled by any `ErrorBoundary` ancestor (the boundary walk ends unhandled,
which covers both an ancestor chain without boundaries and boundaries whose
handlers themselves throw), then `_handlePendingError` — run at the end of
the current render or flush — unmounts the root's entire component tree and
re-throws the recorded error; when the chain contains no boundary at all the
re-thrown error is the original one. -/
theorem unhandled_error_unmounts_and_rethrows {E : Type} (st : RootErrorState E)
    (chain : List (Option (E → Except E Unit))) (err : E)
    (hcur : st.currentError = none)
    (hunhandled : (walkBoundaries err chain).2 = false) :
    handlePendingError ⟨st.treeMounted, invokeErrorHandler st.currentError chain err⟩ =
      (⟨false, none⟩, some (walkBoundaries err chain).1) ∧
    (chain.all Option.isNone = true → (walkBoundaries err chain).1 = err) := by
  constructor
  · rw [hcur]
    simp [handlePendingError, invokeErrorHandler, hunhandled]
  · intro hnone
    rw [walkBoundaries_no_boundary err chain hnone]

/-- Witness instantiating `unhandled_error_unmounts_and_rethrows`: a chain
with one non-boundary ancestor and one boundary whose handler throws `9`. -/
theorem unhandled_error_witness :
    handlePendingError
      ⟨true,
        invokeErrorHandler (E := Nat) none
          [none, some fun _ => Except.error 9] 5⟩ =
      (⟨false, none⟩,
        some (walkBoundaries (E := Nat) 5 [none, some fun _ => Except.error 9]).1) ∧
    (([none, some fun _ => Except.error 9] :
        List (Option (Nat → Except Nat Unit))).all Option.isNone = true →
      (walkBoundaries (E := Nat) 5 [none, some fun _ => Except.error 9]).1 = 5) :=
  unhandled_error_unmounts_and_rethrows ⟨true, none⟩
    [none, some fun _ => Except.error 9] 5 rfl rfl

/-! ## State setters after unmount (src/src/hooks.ts `useState` lines
208-226; src/src/render.ts `_schedule` lines 599-617, `_unmount` lines
727-759, `_flushUpdates` lines 632-706)

A `useState` setter stores the new value on its hook cell and calls the
component's `scheduleUpdate`, which is `(task) => this._schedule(component,
task)`.  `_schedule` adds the component to the root's `_pendingUpdate` set
and arranges a microtask flush — it performs **no** check that the component
is still mounted.  `_unmount` deletes the component from the three pending
queues, but nothing prevents a later setter call from re-adding it.
`_flushUpdates` re-renders every component still in the queue when its turn
comes (its only guard is `!queue.has(component)`).  Components are modelled
by ids; the value stored by the setter and the DOM surgery of the re-render
are irrelevant to the claim and omitted. -/

/-- The scheduler state the claim concerns: which components are mounted,
the `_pendingUpdate` queue (a JS `Set`, i.e. an ordered set), and the log of
components re-rendered by update flushes. -/
structure SchedulerState where
  mounted : List Nat
  pendingUpdate : List Nat
  rendered : List Nat
deriving DecidableEq

/-- `Set.add`: append if not already present. -/
def setAdd (c : Nat) (q : List Nat) : List Nat := if c ∈ q then q else q ++ [c]

/-- Embedding of `_schedule(component, Task.Update)`: unconditionally add the
component to `_pendingUpdate` (there is no mounted-ness check in the code). -/
def scheduleUpdate (c : Nat) (st : SchedulerState) : SchedulerState :=
  { st with pendingUpdate := setAdd c st.pendingUpdate }

/-- A `useState` setter call: stores the value (omitted) and schedules an
update for the owning component. -/
def setterCall (c : Nat) (st : SchedulerState) : SchedulerState :=
  scheduleUpdate c st

/-- Embedding of the bookkeeping of `_unmount` for a custom component: it is
deleted from `_pendingUpdate` (and the effect queues) and is no longer
mounted. -/
def unmountComponent (c : Nat) (st : SchedulerState) : SchedulerState :=
  { st with
      mounted := st.mounted.erase c
      pendingUpdate := st.pendingUpdate.erase c }

/-- Embedding of the drain skeleton of `_flushUpdates`: every component still
in `_pendingUpdate` when its turn comes is re-diffed (here: appended to the
render log) and the queue empties. -/
def flushUpdates (st : SchedulerState) : SchedulerState :=
  { st with pendingUpdate := [], rendered := st.rendered ++ st.pendingUpdate }

/-- C6 (code bug): mount component `0`, unmount it, then invoke its dangling
`useState` setter; the scheduled microtask flush re-renders the component
(`rendered = [0]`) even though it is no longer mounted
(`mounted.contains 0 = false`).  The claim — and the intent witnessed by the
"cancels pending re-renders if component is unmounted" tests — requires
`rendered = []`. -/
theorem dangling_setter_rerenders :
    (flushUpdates (setterCall 0 (unmountComponent 0 ⟨[0], [], []⟩))).rendered = [0] ∧
    ((setterCall 0 (unmountComponent 0 ⟨[0], [], []⟩)).mounted.contains 0) = false := by
  decide

/-! ## Keyed child matching (src/src/render.ts, `_diffOutput` lines 396-456)

For each flattened new child, `_diffOutput` computes the child's key
(`vnodeKey`: the vnode's `key`, or `null` for non-element children and
keyless vnodes) and looks up `prevOutput.findIndex(o => vnodeKey(o.vnode) ===
childKey)`; a hit is spliced out of `prevOutput` and diffed, a miss renders a
fresh subtree; after the loop every component still in `prevOutput` is
unmounted.  The embedding keeps, for each previous-sibling component, its
identity and key, and for each new child its key; `findIndex` followed by
`splice` is `removeFirstByKey`. -/

/-- A previous-sibling component as the matcher sees it: its identity and
the key of the vnode it last rendered (`none` = no key / non-element). -/
structure PrevComp (K : Type) where
  id : Nat
  key : Option K
deriving DecidableEq

/-- `findIndex` by key followed by `splice`: the first component whose key
`===`-equals `k`, together with the list with that component removed. -/
def removeFirstByKey {K : Type} [DecidableEq K] (k : Option K) :
    List (PrevComp K) → Option (PrevComp K × List (PrevComp K))
  | [] => none
  | p :: ps =>
    if p.key = k then some (p, ps)
    else
      match removeFirstByKey k ps with
      | some (q, qs) => some (q, p :: qs)
      | none => none

/-- Embedding of the matching loop of `_diffOutput`: for each new child key,
take the first remaining previous sibling with an equal key (removing it from
the remaining set) or `none` for a fresh render; the second component is the
final `prevOutput` — the unmatched previous siblings, which the code then
unmounts. -/
def diffOutputMatch {K : Type} [DecidableEq K] :
    List (Option K) → List (PrevComp K) →
      List (Option (PrevComp K)) × List (PrevComp K)
  | [], prevOutput => ([], prevOutput)
  | k :: ks, prevOutput =>
    match removeFirstByKey k prevOutput with
    | some (p, rest) =>
      (some p :: (diffOutputMatch ks rest).1, (diffOutputMatch ks rest).2)
    | none =>
      (none :: (diffOutputMatch ks prevOutput).1, (diffOutputMatch ks prevOutput).2)

/-- The claim, as a relation: `MatchSpec newKeys remaining matches unmounted`
holds when, processing new children in order, each child is matched to the
*first* remaining previous-sibling component whose key equals the child's key
(`found`: no sibling before the match in the remaining list carries that key;
an absent key `none` matches an absent key), the matched component is removed
from the remaining set so it cannot be matched again, a child with no match
renders fresh (`fresh`), and after all new children are processed the
components still remaining are exactly the `unmounted` ones (`nil`). -/
inductive MatchSpec {K : Type} :
    List (Option K) → List (PrevComp K) →
      List (Option (PrevComp K)) → List (PrevComp K) → Prop
  | nil (prev : List (PrevComp K)) : MatchSpec [] prev [] prev
  | found {k : Option K} {ks : List (Option K)} {l₁ l₂ : List (PrevComp K)}
      {p : PrevComp K} {ms : List (Option (PrevComp K))} {un : List (PrevComp K)}
      (hkey : p.key = k) (hfirst : ∀ q ∈ l₁, q.key ≠ k)
      (hrest : MatchSpec ks (l₁ ++ l₂) ms un) :
      MatchSpec (k :: ks) (l₁ ++ p :: l₂) (some p :: ms) un
  | fresh {k : Option K} {ks : List (Option K)} {prev : List (PrevComp K)}
      {ms : List (Option (PrevComp K))} {un : List (PrevComp K)}
      (hnone : ∀ q ∈ prev, q.key ≠ k) (hrest : MatchSpec ks prev ms un) :
      MatchSpec (k :: ks) prev (none :: ms) un

theorem removeFirstByKey_none_spec {K : Type} [DecidableEq K] {k : Option K}
    {l : List (PrevComp K)} (h : removeFirstByKey k l = none) :
    ∀ q ∈ l, q.key ≠ k := by
  induction l with
  | nil => intro q hq; simp at hq
  | cons a t ih =>
    rw [removeFirstByKey] at h
    by_cases ha : a.key = k
    · rw [if_pos ha] at h
      exact absurd h (by simp)
    · rw [if_neg ha] at h
      intro q hq
      rcases List.mem_cons.mp hq with hqa | hqt
      · rw [hqa]; exact ha
      · cases hr : removeFirstByKey k t with
        | none => exact ih hr q hqt
        | some pr =>
          rw [hr] at h
          exact absurd h (by simp)

theorem removeFirstByKey_some_spec {K : Type} [DecidableEq K] {k : Option K}
    {l rest : List (PrevComp K)} {p : PrevComp K}
    (h : removeFirstByKey k l = some (p, rest)) :
    ∃ l₁ l₂, l = l₁ ++ p :: l₂ ∧ rest = l₁ ++ l₂ ∧ p.key = k ∧
      ∀ q ∈ l₁, q.key ≠ k := by
  induction l generalizing p rest with
  | nil => simp [removeFirstByKey] at h
  | cons a t ih =>
    rw [removeFirstByKey] at h
    by_cases ha : a.key = k
    · rw [if_pos ha] at h
      obtain ⟨hp, hrest⟩ : a = p ∧ t = rest := by
        constructor <;> (cases h; rfl)
      subst hp
      subst hrest
      exact ⟨[], t, rfl, rfl, ha, by simp⟩
    · rw [if_neg ha] at h
      cases hr : removeFirstByKey k t with
      | none => rw [hr] at h; exact absurd h (by simp)
      | some pr =>
        obtain ⟨q, qs⟩ := pr
        rw [hr] at h
        obtain ⟨hp, hrest⟩ : q = p ∧ a :: qs = rest := by
          constructor <;> (cases h; rfl)
        subst hp
        subst hrest
        obtain ⟨l₁, l₂, h1, h2, h3, h4⟩ := ih hr
        refine ⟨a :: l₁, l₂, by rw [h1]; rfl, by rw [h2]; rfl, h3, ?_⟩
        intro x hx
        rcases List.mem_cons.mp hx with hxa | hxl
        · rw [hxa]; exact ha
        · exact h4 x hxl

theorem diffOutputMatch_cons_none {K : Type} [DecidableEq K] {k : Option K}
    {ks : List (Option K)} {prev : List (PrevComp K)}
    (hr : removeFirstByKey k prev = none) :
    diffOutputMatch (k :: ks) prev =
      (none :: (diffOutputMatch ks prev).1, (diffOutputMatch ks prev).2) := by
  simp [diffOutputMatch, hr]

theorem diffOutputMatch_cons_some {K : Type} [DecidableEq K] {k : Option K}
    {ks : List (Option K)} {prev rest : List (PrevComp K)} {p : PrevComp K}
    (hr : removeFirstByKey k prev = some (p, rest)) :
    diffOutputMatch (k :: ks) prev =
      (some p :: (diffOutputMatch ks rest).1, (diffOutputMatch ks rest).2) := by
  simp [diffOutputMatch, hr]

/-- C1: the matching loop of `_diffOutput` satisfies the claim: every new
child is matched to the first remaining previous-sibling component with an
`===`-equal key (`none` matching `none`), each match is removed from the
remaining set so it cannot match twice, and the components handed to the
final unmount loop are exactly the previous siblings that remained unmatched
(moreover they form a sublist of the original previous output, in order). -/
theorem diffOutputMatch_spec {K : Type} [DecidableEq K]
    (ks : List (Option K)) (prev : List (PrevComp K)) :
    MatchSpec ks prev (diffOutputMatch ks prev).1 (diffOutputMatch ks prev).2 ∧
    List.Sublist (diffOutputMatch ks prev).2 prev := by
  induction ks generalizing prev with
  | nil => exact ⟨MatchSpec.nil prev, List.Sublist.refl _⟩
  | cons k ks ih =>
    cases hr : removeFirstByKey k prev with
    | none =>
      rw [diffOutputMatch_cons_none hr]
      obtain ⟨hspec, hsub⟩ := ih prev
      exact ⟨MatchSpec.fresh (removeFirstByKey_none_spec hr) hspec, hsub⟩
    | some pr =>
      obtain ⟨p, rest⟩ := pr
      rw [diffOutputMatch_cons_some hr]
      obtain ⟨l₁, l₂, hl, hrest, hkey, hfirst⟩ := removeFirstByKey_some_spec hr
      subst hl
      subst hrest
      obtain ⟨hspec, hsub⟩ := ih (l₁ ++ l₂)
      refine ⟨MatchSpec.found hkey hfirst hspec, ?_⟩
      exact hsub.trans ((List.sublist_cons_self p l₂).append_left l₁)

/-! ## Update flush ordering (src/src/render.ts, `_flushUpdates` lines
632-706, `_renderCustom` lines 529-548)

One iteration of the `while (queue.size > 0)` drain of `_flushUpdates` takes
a snapshot `pending = [...queue]`, sorts it by component depth ascending
(`pending.sort((a, b) => a.depth - b.depth)`), and processes each entry,
skipping any component no longer in the queue (`if (!queue.has(component))
continue`).  Processing a component `c` re-diffs it; during that diff
`_renderCustom` is invoked on `c` and on every existing custom descendant the
recursion reaches, and line 530 (`this._pendingUpdate.delete(component)`)
removes each of them from the queue; `_unmount` can delete further
descendants.  Custom components are modelled by their path from the root
custom component (depth = path length); the recursive diff is abstracted by a
function `pass` giving the existing components re-rendered by one processing
step, constrained exactly by what the recursion guarantees: `c` itself is
re-rendered, everything re-rendered is a descendant-or-self of `c`, the
recursion reaches a descendant only through its chain of custom ancestors
(each of which it also re-renders), and one pass re-renders no component
twice.  `extra` is the set additionally deleted from the queue by unmounts. -/

/-- A custom component, identified by its path of child positions from the
root custom component; its depth is the path length. -/
abbrev CompPath : Type := List Nat

/-- `a` is `d` or an ancestor of `d` in the custom-component tree. -/
def ancestorOrSelf (a d : CompPath) : Prop := ∃ t, a ++ t = d

/-- Depth comparison used by the `pending.sort` comparator. -/
def depthLe (a b : CompPath) : Prop := a.length ≤ b.length

instance decDepthLe : DecidableRel depthLe := fun a b => Nat.decLe a.length b.length

instance totalDepthLe : IsTotal CompPath depthLe :=
  ⟨fun a b => Nat.le_total a.length b.length⟩

instance transDepthLe : IsTrans CompPath depthLe :=
  ⟨fun _ _ _ h1 h2 => Nat.le_trans h1 h2⟩

/-- Embedding of `pending.sort((a, b) => a.depth - b.depth)`. -/
def sortByDepth (queue : List CompPath) : List CompPath :=
  List.insertionSort depthLe queue

/-- The `for (let component of pending)` loop: skip entries no longer in the
queue; a processed entry `c` re-renders `pass c` (collected into the render
log) and the queue loses `pass c` (deleted by `_renderCustom`) and `extra c`
(deleted by `_unmount`). -/
def runPending (pass extra : CompPath → List CompPath) :
    List CompPath → List CompPath → List CompPath
  | [], _ => []
  | c :: rest, queue =>
    if c ∈ queue then
      pass c ++ runPending pass extra rest
        (queue.filter fun d => decide (¬ d ∈ pass c ∧ ¬ d ∈ extra c))
    else runPending pass extra rest queue

/-- The components the loop processes directly (those still in the queue when
their turn comes). -/
def directsOf (pass extra : CompPath → List CompPath) :
    List CompPath → List CompPath → List CompPath
  | [], _ => []
  | c :: rest, queue =>
    if c ∈ queue then
      c :: directsOf pass extra rest
        (queue.filter fun d => decide (¬ d ∈ pass c ∧ ¬ d ∈ extra c))
    else directsOf pass extra rest queue

/-- The render log of one iteration of the `_flushUpdates` drain. -/
def flushIterationRendered (pass extra : CompPath → List CompPath)
    (queue : List CompPath) : List CompPath :=
  runPending pass extra (sortByDepth queue) queue

/-- The directly processed components of one drain iteration. -/
def flushIterationDirects (pass extra : CompPath → List CompPath)
    (queue : List CompPath) : List CompPath :=
  directsOf pass extra (sortByDepth queue) queue

theorem ancestorOrSelf_refl (a : CompPath) : ancestorOrSelf a a :=
  ⟨[], List.append_nil a⟩

theorem ancestorOrSelf_take {a d : CompPath} (h : ancestorOrSelf a d) :
    a = d.take a.length := by
  obtain ⟨t, ht⟩ := h
  rw [← ht, List.take_left]

theorem ancestorOrSelf_of_common {a b d : CompPath} (ha : ancestorOrSelf a d)
    (hb : ancestorOrSelf b d) (hlen : a.length ≤ b.length) :
    ancestorOrSelf a b := by
  have ha' := ancestorOrSelf_take ha
  have hb' := ancestorOrSelf_take hb
  have htake : b.take a.length = a := by
    rw [hb', List.take_take, min_eq_left hlen, ← ha']
  have h2 := List.take_append_drop a.length b
  rw [htake] at h2
  exact ⟨b.drop a.length, h2⟩

theorem runPending_mem {pass extra : CompPath → List CompPath}
    {pending queue : List CompPath} {d : CompPath}
    (h : d ∈ runPending pass extra pending queue) :
    ∃ c, c ∈ pending ∧ c ∈ queue ∧ d ∈ pass c := by
  induction pending generalizing queue with
  | nil => simp [runPending] at h
  | cons c rest ih =>
    rw [runPending] at h
    by_cases hc : c ∈ queue
    · rw [if_pos hc] at h
      rcases List.mem_append.mp h with h1 | h2
      · exact ⟨c, List.mem_cons_self c rest, hc, h1⟩
      · obtain ⟨c', h1, h2, h3⟩ := ih h2
        exact ⟨c', List.mem_cons_of_mem c h1, (List.mem_filter.mp h2).1, h3⟩
    · rw [if_neg hc] at h
      obtain ⟨c', h1, h2, h3⟩ := ih h
      exact ⟨c', List.mem_cons_of_mem c h1, h2, h3⟩

theorem runPending_nodup (pass extra : CompPath → List CompPath)
    (_hSelf : ∀ c, c ∈ pass c)
    (hDesc : ∀ c d, d ∈ pass c → ancestorOrSelf c d)
    (hChain : ∀ c d b, d ∈ pass c → ancestorOrSelf c b → ancestorOrSelf b d →
      b ∈ pass c)
    (hNodup : ∀ c, (pass c).Nodup) :
    ∀ pending queue, pending.Pairwise depthLe →
      (runPending pass extra pending queue).Nodup := by
  intro pending
  induction pending with
  | nil =>
    intro queue _
    simp [runPending]
  | cons c rest ih =>
    intro queue hsorted
    rw [runPending]
    by_cases hc : c ∈ queue
    · rw [if_pos hc, List.nodup_append]
      refine ⟨hNodup c, ih _ (List.Pairwise.of_cons hsorted), ?_⟩
      intro d hd hd'
      obtain ⟨c', hc'rest, hc'queue, hdc'⟩ := runPending_mem hd'
      have hc'notpass : ¬ c' ∈ pass c := by
        have hmem := (List.mem_filter.mp hc'queue).2
        simp only [decide_eq_true_eq] at hmem
        exact hmem.1
      apply hc'notpass
      have hle : depthLe c c' := (List.pairwise_cons.mp hsorted).1 c' hc'rest
      exact hChain c d c' hd
        (ancestorOrSelf_of_common (hDesc c d hd) (hDesc c' d hdc') hle)
        (hDesc c' d hdc')
    · rw [if_neg hc]
      exact ih queue (List.Pairwise.of_cons hsorted)

theorem directsOf_sublist (pass extra : CompPath → List CompPath) :
    ∀ pending queue,
      List.Sublist (directsOf pass extra pending queue) pending := by
  intro pending
  induction pending with
  | nil =>
    intro queue
    simp [directsOf]
  | cons c rest ih =>
    intro queue
    rw [directsOf]
    by_cases hc : c ∈ queue
    · rw [if_pos hc]
      exact List.Sublist.cons₂ c (ih _)
    · rw [if_neg hc]
      exact List.Sublist.cons c (ih _)

/-- C2: within a single iteration of the `_flushUpdates` drain, the pending
components that get directly re-rendered are processed in ascending depth
order (first conjunct), and — because a processed ancestor's diff re-renders
each pending descendant it reaches and `_renderCustom` then removes that
descendant from the update queue, so it is skipped when its own turn comes —
no component is re-rendered twice in the iteration (second conjunct: the
render log has no duplicates).  The hypotheses are the guarantees of the
recursive diff: a processing step re-renders the component itself, only
descendants-or-self, reaches a descendant only through re-rendered custom
ancestors, and re-renders nothing twice within one step. -/
theorem flush_iteration_spec (pass extra : CompPath → List CompPath)
    (queue : List CompPath)
    (hSelf : ∀ c, c ∈ pass c)
    (hDesc : ∀ c d, d ∈ pass c → ancestorOrSelf c d)
    (hChain : ∀ c d b, d ∈ pass c → ancestorOrSelf c b → ancestorOrSelf b d →
      b ∈ pass c)
    (hNodup : ∀ c, (pass c).Nodup) :
    (flushIterationDirects pass extra queue).Pairwise depthLe ∧
    (flushIterationRendered pass extra queue).Nodup := by
  constructor
  · exact List.Pairwise.sublist (directsOf_sublist pass extra _ queue)
      (List.sorted_insertionSort depthLe queue)
  · exact runPending_nodup pass extra hSelf hDesc hChain hNodup _ queue
      (List.sorted_insertionSort depthLe queue)

/-- Witness instantiating `flush_iteration_spec` with a two-component queue
(a root and its child) and the minimal pass re-rendering just the processed
component. -/
theorem flush_iteration_spec_witness :
    (flushIterationDirects (fun c => [c]) (fun _ => []) [[0], [0, 1]]).Pairwise depthLe ∧
    (flushIterationRendered (fun c => [c]) (fun _ => []) [[0], [0, 1]]).Nodup :=
  flush_iteration_spec (fun c => [c]) (fun _ => []) [[0], [0, 1]]
    (fun c => List.mem_cons_self c [])
    (fun c d hd => by
      simp only [List.mem_singleton] at hd
      rw [hd]
      exact ancestorOrSelf_refl c)
    (fun c d b hd hcb hbd => by
      simp only [List.mem_singleton] at hd ⊢
      rw [hd] at hbd
      obtain ⟨t1, h1⟩ := hcb
      obtain ⟨t2, h2⟩ := hbd
      have hlen1 : c.length + t1.length = b.length := by
        rw [← h1, List.length_append]
      have hlen2 : b.length + t2.length = c.length := by
        rw [← h2, List.length_append]
      have ht1 : t1 = [] := List.length_eq_zero.mp (by omega)
      rw [ht1] at h1
      simpa using h1.symm)
    (fun c => List.nodup_singleton c)

/-! ## Mount/unmount round trip (src/src/render.ts, `Root.render`,
`_renderTree` lines 461-513, `Root.unmount` lines 276-279, `_unmount` lines
727-759)

`render(v, container)` renders a fresh tree with `_renderTree` and inserts
each of its dom-roots into the container; `Root.unmount()` is `render(null)`,
which unmounts the previous component (`_unmount`) and leaves nothing.
`_renderTree` on a host element creates the host node, sets
`props.ref.current = element` if a `ref` prop is present, then renders the
children; `_unmount` recurses into the children first, then clears
`ref.current` — but only when it still points at this component's own host
node — and, at the top level only, removes the component's dom-roots from
their host parent.  Vnodes are modelled as a first-child/next-sibling tree of
host elements (with optional ref ids), text nodes, empties and custom
components represented by their rendered output (for a single
mount-then-unmount round trip a custom component behaves exactly as its
output; hook cleanups do not touch refs or the container).  Host nodes are
numbered by a counter; ref cells live in a store mapping ref ids to the host
node they point at (`none` = `null`).  No user code runs between mount and
unmount, so no ref is reassigned in between. -/

/-- A renderable tree: a sibling chain of host elements, text nodes, empty
children (`null`/booleans) and custom components given by their output. -/
inductive HTree where
  | nil : HTree
  | textNode (s : String) (next : HTree)
  | emptyNode (next : HTree)
  | elemNode (tag : String) (ref : Option Nat) (children : HTree) (next : HTree)
  | customNode (output : HTree) (next : HTree)

/-- The backing component chain produced by `_renderTree`: text and element
components own a host node (`dom`), the empty component and custom components
do not (a custom component's dom-roots are those of its children). -/
inductive CompT where
  | nil : CompT
  | textC (dom : Nat) (next : CompT)
  | emptyC (next : CompT)
  | elemC (dom : Nat) (ref : Option Nat) (children : CompT) (next : CompT)
  | customC (children : CompT) (next : CompT)

/-- The ref cells: ref id to current host node (`none` = `null`). -/
abbrev RefStore : Type := Nat → Option Nat

def emptyRefStore : RefStore := fun _ => none

/-- Assign a ref cell. -/
def setRef (s : RefStore) (r : Nat) (v : Option Nat) : RefStore :=
  fun x => if x = r then v else s x

/-- `if (vnode.props.ref) vnode.props.ref.current = element` at element
creation. -/
def setElemRef (r : Option Nat) (n : Nat) (s : RefStore) : RefStore :=
  match r with
  | some rid => setRef s rid (some n)
  | none => s

/-- Embedding of `_renderTree` over a sibling chain: allocate host-node ids
from a counter, assign the ref of each host element to its freshly created
node before rendering its children, and return the component chain, the next
free id and the ref store. -/
def mount : HTree → Nat → RefStore → CompT × Nat × RefStore
  | .nil, n, s => (.nil, n, s)
  | .textNode _ nx, n, s =>
    let m := mount nx (n + 1) s
    (.textC n m.1, m.2)
  | .emptyNode nx, n, s =>
    let m := mount nx n s
    (.emptyC m.1, m.2)
  | .elemNode _ r cs nx, n, s =>
    let mk := mount cs (n + 1) (setElemRef r n s)
    let mn := mount nx mk.2.1 mk.2.2
    (.elemC n r mk.1 mn.1, mn.2)
  | .customNode out nx, n, s =>
    let mk := mount out n s
    let mn := mount nx mk.2.1 mk.2.2
    (.customC mk.1 mn.1, mn.2)

/-- `forEachDomRoot` over a component chain: the top-level host nodes, in
order.  These are the nodes `render` inserts into the container. -/
def domRootsT : CompT → List Nat
  | .nil => []
  | .textC d nx => d :: domRootsT nx
  | .emptyC nx => domRootsT nx
  | .elemC d _ _ nx => d :: domRootsT nx
  | .customC kids nx => domRootsT kids ++ domRootsT nx

/-- The `(ref id, host node)` pair a single host element contributes. -/
def ownRefPair (r : Option Nat) (d : Nat) : List (Nat × Nat) :=
  match r with
  | some rid => [(rid, d)]
  | none => []

/-- All `(ref id, host node)` pairs of host elements carrying a `ref` prop
anywhere in a component chain. -/
def refNodes : CompT → List (Nat × Nat)
  | .nil => []
  | .textC _ nx => refNodes nx
  | .emptyC nx => refNodes nx
  | .elemC d r kids nx => ownRefPair r d ++ refNodes kids ++ refNodes nx
  | .customC kids nx => refNodes kids ++ refNodes nx

/-- The ref-clearing step of `_unmount` for one component: `if (ref &&
ref.current === component.dom) ref.current = null`. -/
def clearOwnRef (r : Option Nat) (d : Nat) (s : RefStore) : RefStore :=
  match r with
  | some rid => if s rid = some d then setRef s rid none else s
  | none => s

/-- Embedding of the ref bookkeeping of `_unmount` over a component chain:
children are unmounted before the component's own ref is cleared, siblings in
order. -/
def unmountRefs : CompT → RefStore → RefStore
  | .nil, s => s
  | .textC _ nx, s => unmountRefs nx s
  | .emptyC nx, s => unmountRefs nx s
  | .elemC d r kids nx, s => unmountRefs nx (clearOwnRef r d (unmountRefs kids s))
  | .customC kids nx, s => unmountRefs nx (unmountRefs kids s)

/-- `node.remove()` for each top-level dom-root, applied to the container's
child list. -/
def removeNodes (roots container : List Nat) : List Nat :=
  container.filter fun d => decide (¬ d ∈ roots)

theorem setRef_self (s : RefStore) (r : Nat) (v : Option Nat) :
    setRef s r v r = v := by
  simp [setRef]

theorem clearOwnRef_cases (r0 : Option Nat) (d0 : Nat) (s : RefStore) (r : Nat) :
    clearOwnRef r0 d0 s r = s r ∨ clearOwnRef r0 d0 s r = none := by
  cases r0 with
  | none => exact Or.inl rfl
  | some rid =>
    by_cases hg : s rid = some d0
    · by_cases hr : r = rid
      · subst hr
        right
        simp [clearOwnRef, hg, setRef]
      · left
        simp [clearOwnRef, hg, setRef, hr]
    · left
      simp [clearOwnRef, hg]

theorem clearOwnRef_none {r0 : Option Nat} {d0 : Nat} {s : RefStore} {r : Nat}
    (h : s r = none) : clearOwnRef r0 d0 s r = none := by
  rcases clearOwnRef_cases r0 d0 s r with h1 | h1 <;> rw [h1]
  exact h

theorem clearOwnRef_hit {d0 : Nat} {s : RefStore} {r : Nat}
    (h : s r = some d0) : clearOwnRef (some r) d0 s r = none := by
  rw [clearOwnRef, if_pos h]
  exact setRef_self s r none

theorem unmountRefs_cases (c : CompT) : ∀ (s : RefStore) (r : Nat),
    unmountRefs c s r = s r ∨ unmountRefs c s r = none := by
  induction c with
  | nil =>
    intro s r
    exact Or.inl rfl
  | textC d nx ih =>
    intro s r
    exact ih s r
  | emptyC nx ih =>
    intro s r
    exact ih s r
  | elemC d r0 kids nx ihk ihn =>
    intro s r
    rw [unmountRefs]
    rcases ihn (clearOwnRef r0 d (unmountRefs kids s)) r with h1 | h1
    · rw [h1]
      rcases clearOwnRef_cases r0 d (unmountRefs kids s) r with h2 | h2
      · rw [h2]
        exact ihk s r
      · right
        exact h2
    · right
      exact h1
  | customC kids nx ihk ihn =>
    intro s r
    rw [unmountRefs]
    rcases ihn (unmountRefs kids s) r with h1 | h1
    · rw [h1]
      exact ihk s r
    · right
      exact h1

theorem unmountRefs_none {c : CompT} {s : RefStore} {r : Nat} (h : s r = none) :
    unmountRefs c s r = none := by
  rcases unmountRefs_cases c s r with h1 | h1 <;> rw [h1]
  exact h

/-- If a host element inside the unmounted tree carries ref `r` and the ref
store still points `r` at that element's host node, the unmount recursion
resets `r` to `null`. -/
theorem unmountRefs_clears (c : CompT) : ∀ (s : RefStore) (r d : Nat),
    (r, d) ∈ refNodes c → s r = some d → unmountRefs c s r = none := by
  induction c with
  | nil =>
    intro s r d hm _
    simp [refNodes] at hm
  | textC d0 nx ih =>
    intro s r d hm hv
    exact ih s r d (by simpa [refNodes] using hm) hv
  | emptyC nx ih =>
    intro s r d hm hv
    exact ih s r d (by simpa [refNodes] using hm) hv
  | customC kids nx ihk ihn =>
    intro s r d hm hv
    rw [unmountRefs]
    rw [refNodes] at hm
    rcases List.mem_append.mp hm with hk | hn
    · exact unmountRefs_none (ihk s r d hk hv)
    · rcases unmountRefs_cases kids s r with h1 | h1
      · exact ihn _ r d hn (by rw [h1, hv])
      · exact unmountRefs_none h1
  | elemC d0 r0 kids nx ihk ihn =>
    intro s r d hm hv
    rw [unmountRefs]
    rw [refNodes] at hm
    rcases List.mem_append.mp hm with hok | hn
    · rcases List.mem_append.mp hok with hown | hk
      · -- the pair is this element's own ref: r0 = some r and d0 = d
        cases r0 with
        | none => simp [ownRefPair] at hown
        | some rid =>
          simp only [ownRefPair, List.mem_singleton, Prod.mk.injEq] at hown
          obtain ⟨hrid, hd0⟩ := hown
          subst hrid
          subst hd0
          rcases unmountRefs_cases kids s r with h1 | h1
          · exact unmountRefs_none (clearOwnRef_hit (h1.trans hv))
          · exact unmountRefs_none (clearOwnRef_none h1)
      · -- the pair is inside the children
        exact unmountRefs_none (clearOwnRef_none (ihk s r d hk hv))
    · -- the pair is inside the next siblings
      rcases clearOwnRef_cases r0 d0 (unmountRefs kids s) r with h2 | h2
      · rcases unmountRefs_cases kids s r with h1 | h1
        · exact ihn _ r d hn (by rw [h2, h1, hv])
        · exact unmountRefs_none (by rw [h2, h1])
      · exact unmountRefs_none h2

/-- After a fresh mount, every ref entry either kept its previous value or
points at the host node of some element inside the mounted tree that carries
that ref. -/
theorem mount_refs_spec (v : HTree) : ∀ (n : Nat) (s : RefStore) (r : Nat),
    (mount v n s).2.2 r = s r ∨
      ∃ d, (r, d) ∈ refNodes (mount v n s).1 ∧ (mount v n s).2.2 r = some d := by
  induction v with
  | nil =>
    intro n s r
    exact Or.inl rfl
  | textNode str nx ih =>
    intro n s r
    rcases ih (n + 1) s r with h | ⟨d, hd1, hd2⟩
    · exact Or.inl h
    · exact Or.inr ⟨d, hd1, hd2⟩
  | emptyNode nx ih =>
    intro n s r
    rcases ih n s r with h | ⟨d, hd1, hd2⟩
    · exact Or.inl h
    · exact Or.inr ⟨d, hd1, hd2⟩
  | elemNode tag r0 cs nx ihk ihn =>
    intro n s r
    rw [mount]
    simp only []
    rcases ihn (mount cs (n + 1) (setElemRef r0 n s)).2.1
        (mount cs (n + 1) (setElemRef r0 n s)).2.2 r with h | ⟨d, hd1, hd2⟩
    · rw [h]
      rcases ihk (n + 1) (setElemRef r0 n s) r with h2 | ⟨d, hd1, hd2⟩
      · rw [h2]
        cases r0 with
        | none => exact Or.inl rfl
        | some rid =>
          by_cases hr : r = rid
          · subst hr
            right
            refine ⟨n, ?_, setRef_self s r (some n)⟩
            rw [refNodes]
            exact List.mem_append_left _
              (List.mem_append_left _ (by simp [ownRefPair]))
          · left
            simp [setElemRef, setRef, hr]
      · right
        refine ⟨d, ?_, hd2⟩
        rw [refNodes]
        exact List.mem_append_left _ (List.mem_append_right _ hd1)
    · right
      refine ⟨d, ?_, hd2⟩
      rw [refNodes]
      exact List.mem_append_right _ hd1
  | customNode out nx ihk ihn =>
    intro n s r
    rw [mount]
    simp only []
    rcases ihn (mount out n s).2.1 (mount out n s).2.2 r with h | ⟨d, hd1, hd2⟩
    · rw [h]
      rcases ihk n s r with h2 | ⟨d, hd1, hd2⟩
      · exact Or.inl h2
      · right
        refine ⟨d, ?_, hd2⟩
        rw [refNodes]
        exact List.mem_append_left _ hd1
    · right
      refine ⟨d, ?_, hd2⟩
      rw [refNodes]
      exact List.mem_append_right _ hd1

theorem removeNodes_self (roots : List Nat) : removeNodes roots roots = [] := by
  rw [removeNodes]
  rw [List.filter_eq_nil_iff]
  intro a ha
  simp [ha]

/-- C8: render a vnode tree into an empty container and then unmount the
container: every dom-root the mount inserted is removed again, leaving the
container with no rendered host nodes, and every ref that was assigned during
the mount (no user code runs in between, so none is reassigned) is reset to
`null`. -/
theorem mount_unmount_roundtrip (v : HTree) (r : Nat)
    (h : (mount v 0 emptyRefStore).2.2 r ≠ none) :
    removeNodes (domRootsT (mount v 0 emptyRefStore).1)
        (domRootsT (mount v 0 emptyRefStore).1) = [] ∧
    unmountRefs (mount v 0 emptyRefStore).1 (mount v 0 emptyRefStore).2.2 r = none := by
  refine ⟨removeNodes_self _, ?_⟩
  rcases mount_refs_spec v 0 emptyRefStore r with h1 | ⟨d, hd1, hd2⟩
  · exact absurd h1 h
  · exact unmountRefs_clears _ _ r d hd1 hd2

/-- Witness instantiating `mount_unmount_roundtrip`: a `div` carrying ref `7`
with a text child, next to a custom component wrapping an element with ref
`3`. -/
theorem mount_unmount_roundtrip_witness :
    removeNodes
        (domRootsT
          (mount
            (HTree.elemNode "div" (some 7) (HTree.textNode "hi" HTree.nil)
              (HTree.customNode
                (HTree.elemNode "span" (some 3) HTree.nil HTree.nil) HTree.nil))
            0 emptyRefStore).1)
        (domRootsT
          (mount
            (HTree.elemNode "div" (some 7) (HTree.textNode "hi" HTree.nil)
              (HTree.customNode
                (HTree.elemNode "span" (some 3) HTree.nil HTree.nil) HTree.nil))
            0 emptyRefStore).1) = [] ∧
    unmountRefs
        (mount
          (HTree.elemNode "div" (some 7) (HTree.textNode "hi" HTree.nil)
            (HTree.customNode
              (HTree.elemNode "span" (some 3) HTree.nil HTree.nil) HTree.nil))
          0 emptyRefStore).1
        (mount
          (HTree.elemNode "div" (some 7) (HTree.textNode "hi" HTree.nil)
            (HTree.customNode
              (HTree.elemNode "span" (some 3) HTree.nil HTree.nil) HTree.nil))
          0 emptyRefStore).2.2 7 = none :=
  mount_unmount_roundtrip
    (HTree.elemNode "div" (some 7) (HTree.textNode "hi" HTree.nil)
      (HTree.customNode
        (HTree.elemNode "span" (some 3) HTree.nil HTree.nil) HTree.nil))
    7 (by decide)

end Ureact
